import Mathlib

set_option maxHeartbeats 1000000

/-!
Shallow embedding of the CIBF postprocessor pipeline (src/main.py) and proofs
about its text-normalization and identity-resolution logic.

Python strings are modelled as `String` / `List Char`; the external
language-understanding service (OpenAI) is modelled as an opaque `Gateway`
record of responses, and MongoDB state as explicit record-list state passing.
-/

/-! ## Python string primitives -/

/-- Whitespace class used by Python's `str.strip()` and the regex class `\s`
on `str` patterns (ASCII whitespace plus the common Unicode members NEL and
NBSP; this model covers every character the repository's inputs exercise). -/
def pySpace (c : Char) : Bool :=
  c = ' ' || c = '\t' || c = '\n' || c = '\r' || c = '\x0b' || c = '\x0c' ||
  c = '\x1c' || c = '\x1d' || c = '\x1e' || c = '\x1f' || c = '\x85' || c = '\xa0'

/-- Drop matching characters from the right end of a list. -/
def rdropWhile (p : Char → Bool) (l : List Char) : List Char :=
  (l.reverse.dropWhile p).reverse

/-- Model of Python `str.strip()` on a character list. -/
def pyStripL (l : List Char) : List Char :=
  rdropWhile pySpace (l.dropWhile pySpace)

/-- Model of Python `str.strip()`. -/
def pyStrip (s : String) : String := String.mk (pyStripL s.data)

/-- Model of Python `str.lower()` (ASCII case folding, which covers the
identifiers the repository compares). -/
def pyLower (s : String) : String := String.mk (s.data.map Char.toLower)

/-- Model of Python `str.upper()` (ASCII case folding). -/
def pyUpper (s : String) : String := String.mk (s.data.map Char.toUpper)

/-- Model of Python `str.strip(c)` for a single stripped character. -/
def pyStripChar (c : Char) (s : String) : String :=
  String.mk (rdropWhile (fun d => d = c) (s.data.dropWhile (fun d => d = c)))

/-- Model of Python `str.rstrip('.,;:!?')` (src/main.py line 294). -/
def pyRstripPunct (s : String) : String :=
  String.mk (rdropWhile
    (fun d => d = '.' || d = ',' || d = ';' || d = ':' || d = '!' || d = '?') s.data)

/-- Model of Python `str.split(sep)` for a one-character separator:
`splitOnC sep []` is `[[]]`, mirroring `"".split(sep) == [""]`. -/
def splitOnC (sep : Char) : List Char → List (List Char)
  | [] => [[]]
  | c :: rest =>
    if c = sep then [] :: splitOnC sep rest
    else
      match splitOnC sep rest with
      | [] => [[c]]
      | l :: ls => (c :: l) :: ls

/-- Model of Python `sep.join(...)` for a one-character separator. -/
def joinC (sep : Char) : List (List Char) → List Char
  | [] => []
  | [l] => l
  | l :: ls => l ++ sep :: joinC sep ls

/-! ## Phone normalizer (src/main.py lines 62-80) -/

/-- Characters of the input that satisfy `str.isdigit` (ASCII digits in this
model); models `''.join(filter(str.isdigit, phone_number))` (line 65). -/
def digitsOnlyL (l : List Char) : List Char := l.filter Char.isDigit

/-- Model of Python `str.zfill(w)` on a digit list (no sign handling needed
because the input contains only digits). -/
def zfillL (w : Nat) (l : List Char) : List Char :=
  List.replicate (w - l.length) '0' ++ l

/-- Core of `normalize_phone_number` on a character list, translated branch by
branch from src/main.py lines 62-80 (`digits_only[-10:]` is
`drop (length - 10)`). -/
def normPhoneL (l : List Char) : List Char :=
  if (digitsOnlyL l).take 2 = ['9', '1'] ∧ (digitsOnlyL l).length > 10 then
    (digitsOnlyL l).drop 2
  else if (digitsOnlyL l).length > 10 then
    (digitsOnlyL l).drop ((digitsOnlyL l).length - 10)
  else if (digitsOnlyL l).length < 10 then
    zfillL 10 (digitsOnlyL l)
  else
    digitsOnlyL l

/-- `normalize_phone_number` from src/main.py lines 62-80. -/
def normalize_phone_number (s : String) : String := String.mk (normPhoneL s.data)

/-! ## Conversation tag normalizer (src/main.py lines 83-113)

The two regexes (lines 94 and 96) are anchored alternations of literal pieces,
`\s*`, `\([^)]*\)` and a final `\s*:\s*(.*)$`.  Every piece matches
deterministically (each greedy star is followed by a character it can never
match), so ordered trial of the alternatives is equivalent to the regex
engine's backtracking search; the matchers below implement that trial. -/

/-- Case-insensitive comparison of two characters, as `re.IGNORECASE` compares
the ASCII letters of the patterns. -/
def lowEq (a b : Char) : Bool := a.toLower == b.toLower

/-- Consume a literal pattern (given lowercase) case-insensitively at the head
of the input, returning the rest. -/
def matchCI : List Char → List Char → Option (List Char)
  | [], s => some s
  | _ :: _, [] => none
  | p :: ps, c :: cs => if lowEq c p then matchCI ps cs else none

/-- Consume leading whitespace; models a greedy `\s*` that is followed by a
character `\s` can never match. -/
def skipSpaces : List Char → List Char
  | [] => []
  | c :: cs => if pySpace c then skipSpaces cs else c :: cs

/-- Consume one expected literal (non-letter) character. -/
def expectChar (c : Char) : List Char → Option (List Char)
  | d :: rest => if d = c then some rest else none
  | [] => none

/-- Consume up to and including the first ')'; models `[^)]*\)`. -/
def takeToClose : List Char → Option (List Char)
  | [] => none
  | c :: rest => if c = ')' then some rest else takeToClose rest

/-- Models `\(Agent\)` (case-insensitive literal). -/
def matchParenAgent (s : List Char) : Option (List Char) :=
  (expectChar '(' s).bind
    (fun r1 => (matchCI ['a', 'g', 'e', 'n', 't'] r1).bind (expectChar ')'))

/-- Models `\([^)]*\)`. -/
def matchParenAny (s : List Char) : Option (List Char) :=
  (expectChar '(' s).bind takeToClose

/-- Models the common tail `\s*:\s*(.*)$` of both patterns, returning the
capture group (a `.` cannot match a newline, and the per-line inputs contain
none). -/
def colonRest (s : List Char) : Option (List Char) :=
  (expectChar ':' (skipSpaces s)).map skipSpaces

/-- The ordered alternation
`Natalie\s*\(Agent\)|Agent\s*\([^)]*\)|Natalie|Agent` of the agent pattern
(src/main.py line 94). -/
def agentHead (s : List Char) : Option (List Char) :=
  match (matchCI ['n', 'a', 't', 'a', 'l', 'i', 'e'] s).bind
      (fun r => matchParenAgent (skipSpaces r)) with
  | some r => some r
  | none =>
    match (matchCI ['a', 'g', 'e', 'n', 't'] s).bind
        (fun r => matchParenAny (skipSpaces r)) with
    | some r => some r
    | none =>
      match matchCI ['n', 'a', 't', 'a', 'l', 'i', 'e'] s with
      | some r => some r
      | none => matchCI ['a', 'g', 'e', 'n', 't'] s

/-- The agent-line match
`^(?:Natalie\s*\(Agent\)|Agent\s*\([^)]*\)|Natalie|Agent)\s*:\s*(.*)$` with
`re.IGNORECASE` (src/main.py line 94), returning the capture group. -/
def agentMatch (s : List Char) : Option (List Char) :=
  (agentHead s).bind colonRest

/-- The user-line match `^User\s*:\s*(.*)$` with `re.IGNORECASE`
(src/main.py line 96), returning the capture group. -/
def userMatch (s : List Char) : Option (List Char) :=
  (matchCI ['u', 's', 'e', 'r'] s).bind colonRest

/-- Per-line normalization: the body of the loop in src/main.py lines 91-111. -/
def normLine (l : List Char) : List Char :=
  match agentMatch l with
  | some g => "Agent: ".data ++ g
  | none =>
    match userMatch l with
    | some g => "User: ".data ++ g
    | none => l

/-- Core of `normalize_conversation_tags`: split on newline, rewrite each
line, rejoin on newline (src/main.py lines 88-113). -/
def normTagsL (s : List Char) : List Char :=
  joinC '\n' ((splitOnC '\n' s).map normLine)

/-- `normalize_conversation_tags` from src/main.py lines 83-113. -/
def normalize_conversation_tags (s : String) : String :=
  String.mk (normTagsL s.data)

/-! ## Data model (MongoDB documents and state)

The `CIBF` database holds three collections (`users`, `userAnalytics`,
`conversationHistory`).  `ObjectId` values are modelled as naturals drawn from
a `nextId` counter.  Analytics documents are modelled as open field lists
(key/value pairs) because the code manipulates them at field granularity
(`$set`, `"follow_up" not in existing`). -/

/-- A BSON-ish field value: string, boolean, or object-id reference. -/
inductive Val where
  | vStr : String → Val
  | vBool : Bool → Val
  | vOid : Nat → Val
deriving DecidableEq

/-- A `users` document (src/main.py lines 395-403): `name` and `email` keys
are always present, `phone_number` is present only on the phone path. -/
structure UserDoc where
  id : Nat
  name : String
  email : String
  phone_number : Option String
deriving DecidableEq

/-- A `userAnalytics` document: its identifier plus an open field list. -/
structure AnalyticsRec where
  id : Nat
  fields : List (String × Val)
deriving DecidableEq

/-- A `conversationHistory` document (src/main.py lines 732-737; the
`timestamp` field is omitted, being wall-clock time). -/
structure HistoryRec where
  id : Nat
  user_id : Nat
  conversation : String
  languages_used : List String
deriving DecidableEq

/-- The three collections plus the id counter. -/
structure DB where
  nextId : Nat
  users : List UserDoc
  analytics : List AnalyticsRec
  history : List HistoryRec
deriving DecidableEq

/-- First value bound to key `k`, as a MongoDB document field lookup. -/
def getField (fs : List (String × Val)) (k : String) : Option Val :=
  (fs.find? (fun kv => kv.1 == k)).map (fun kv => kv.2)

/-- MongoDB `$set` of a single field on a document (documents have unique
keys): replace the value in place if the key is present, append the field
otherwise. -/
def setField : List (String × Val) → String → Val → List (String × Val)
  | [], k, v => [(k, v)]
  | kv :: rest, k, v => if kv.1 = k then (k, v) :: rest else kv :: setField rest k v

/-- MongoDB `$set` of a whole update document, field by field. -/
def setFields (fs upd : List (String × Val)) : List (String × Val) :=
  upd.foldl (fun acc kv => setField acc kv.1 kv.2) fs

/-- `update_one`: rewrite the first record matching the filter. -/
def updateFirst (p : AnalyticsRec → Bool) (f : AnalyticsRec → AnalyticsRec) :
    List AnalyticsRec → List AnalyticsRec
  | [] => []
  | a :: rest => if p a then f a :: rest else a :: updateFirst p f rest

/-- Number of analytics records whose `user_id` field is `x`. -/
def countA (x : Nat) (l : List AnalyticsRec) : Nat :=
  (l.filter (fun a => getField a.fields "user_id" == some (Val.vOid x))).length

/-! ## Extraction gateway (external OpenAI collaborator)

Each record field is the (deterministic, per conversation) response the
external model produces for the corresponding call; the repository's
post-processing of those responses is translated below where a claim depends
on it. -/

/-- Opaque responses of the external language-understanding service. -/
structure Gateway where
  phoneResp : String
  emailResp : String
  profileName : String
  profileEmail : String
  languages : List String
  followUpResp : Bool
  countryResp : Option String
  intentResp : Option String

/-- `extract_phone_number` (src/main.py lines 174-214): strip the model
output, treat "NOT_FOUND"/empty as absent, normalize, and reject any
normalized value that is not exactly 10 characters long. -/
def extract_phone_number (gw : Gateway) : Option String :=
  let phone := pyStrip gw.phoneResp
  if phone = "NOT_FOUND" ∨ phone = "" then none
  else
    let normalized := normalize_phone_number phone
    if normalized.length ≠ 10 then none else some normalized

/-- `extract_email` (src/main.py lines 217-318): strip, reject
"NOT_FOUND"/empty, lowercase/strip/unquote/trim punctuation, then validate the
basic `local@domain.tld` structure exactly as the code does. -/
def extract_email (gw : Gateway) : Option String :=
  let email0 := pyStrip gw.emailResp
  if email0 = "NOT_FOUND" ∨ email0 = "" then none
  else
    let email := pyRstripPunct
      (pyStripChar '\'' (pyStripChar '"' (pyStrip (pyLower email0))))
    if '@' ∉ email.data then none
    else if '.' ∉ ((splitOnC '@' email.data).getD 1 []) then none
    else
      let parts := splitOnC '@' email.data
      if parts.length ≠ 2 then none
      else if parts.getD 0 [] = [] ∨ parts.getD 1 [] = [] then none
      else if '.' ∉ parts.getD 1 [] then none
      else some email

/-- `detect_languages` (src/main.py lines 116-171): the response list is the
post-processed (lowercased, deduplicated, sorted) model output; an empty list
defaults to `["english"]` (lines 159-160). -/
def detect_languages (gw : Gateway) : List String :=
  if gw.languages = [] then ["english"] else gw.languages

/-- `detect_follow_up` (src/main.py lines 502-545): the coerced boolean answer
of the external model. -/
def detect_follow_up (gw : Gateway) : Bool := gw.followUpResp

/-- `generate_analytics` (src/main.py lines 548-600): build the analytics
document with `country` defaulting to `""`, `intent_level` defaulting to
"TOFU" and uppercased, and `follow_up` from `detect_follow_up`. -/
def generate_analytics (gw : Gateway) (user_id : Nat) : List (String × Val) :=
  let country := match gw.countryResp with
    | some c => c
    | none => ""
  let intent0 := match gw.intentResp with
    | some st => if st = "" then "TOFU" else st
    | none => "TOFU"
  [("user_id", Val.vOid user_id), ("country", Val.vStr country),
   ("intent_level", Val.vStr (pyUpper intent0)),
   ("follow_up", Val.vBool (detect_follow_up gw))]

/-! ## Pipeline (src/main.py lines 321-439 and 614-777)

`process_conversation` is split phase by phase, mirroring the comments in the
source.  Every store operation and external call is logged in an effect trace
so that "no lookup/insert happened" claims are statable. -/

/-- An observable effect: an external-model call or a store operation. -/
inductive Eff where
  | callExtractPhone
  | callExtractEmail
  | callDetectLanguages
  | callExtractProfile
  | callDetectFollowUp
  | callExtractAnalytics
  | findUserByPhone : String → Eff
  | findUserByEmail : String → Eff
  | insertUser : Nat → Eff
  | findAnalytics : Nat → Eff
  | updateAnalytics : Nat → Eff
  | insertAnalytics : Nat → Eff
  | insertHistory : Nat → Eff
deriving DecidableEq

/-- Errors surfaced as HTTP failures by `process_conversation`. -/
inductive PErr where
  | invalidInput
  | extractionFailed
  | userCreationFailed
deriving DecidableEq

deriving instance DecidableEq for Except

/-- The success payload assembled at src/main.py lines 748-769. -/
structure ProcResp where
  user : UserDoc
  analyticsId : Nat
  analyticsFields : List (String × Val)
  historyId : Nat
deriving DecidableEq

/-- `create_user_from_conversation` (src/main.py lines 321-439): build the
user document from the profile hint (`email or user_data.get("email", "")`,
lowercased and stripped when non-empty; `"91" + phone` when a phone is
given), then re-check existence by phone, then by email, and insert only if
both lookups miss. -/
def create_user_from_conversation (gw : Gateway) (phone_number email : Option String)
    (db : DB) : Option UserDoc × DB × List Eff :=
  let e0 : String := match email with
    | some e => if e = "" then gw.profileEmail else e
    | none => gw.profileEmail
  let extracted_email := if e0 = "" then e0 else pyStrip (pyLower e0)
  let phoneFmt : Option String := phone_number.map (fun p => "91" ++ p)
  let user_doc : UserDoc := UserDoc.mk db.nextId gw.profileName extracted_email phoneFmt
  let tr1 : List Eff := [Eff.callExtractProfile]
  let phoneHit : Option UserDoc := match phoneFmt with
    | some pdb => db.users.find? (fun u => u.phone_number == some pdb)
    | none => none
  let tr2 := tr1 ++ (match phoneFmt with
    | some pdb => [Eff.findUserByPhone pdb]
    | none => [])
  match phoneHit with
  | some u => (some u, db, tr2)
  | none =>
    let emailHit : Option UserDoc := if extracted_email = "" then none
      else db.users.find? (fun u => u.email == extracted_email)
    let tr3 := tr2 ++ (if extracted_email = "" then []
      else [Eff.findUserByEmail extracted_email])
    match emailHit with
    | some u => (some u, db, tr3)
    | none =>
      let db1 := DB.mk (db.nextId + 1) (db.users ++ [user_doc]) db.analytics db.history
      (some user_doc, db1, tr3 ++ [Eff.insertUser user_doc.id])

/-- Phase 3 (src/main.py lines 723-771): always insert a fresh normalized
conversation-history document and assemble the response. -/
def processPhase3 (conversation : String) (languages : List String) (u : UserDoc)
    (db : DB) (tr : List Eff) (analyticsId : Nat)
    (analyticsFields : List (String × Val)) : Except PErr ProcResp × DB × List Eff :=
  let normalized := normalize_conversation_tags conversation
  let hist := HistoryRec.mk db.nextId u.id normalized languages
  let db1 := DB.mk (db.nextId + 1) db.users db.analytics (db.history ++ [hist])
  (Except.ok (ProcResp.mk u analyticsId analyticsFields hist.id), db1,
    tr ++ [Eff.insertHistory hist.id])

/-- Phase 2 (src/main.py lines 686-721): generate the analytics document; if a
record for this `user_id` exists, re-detect `follow_up` when the existing
record lacks that field, then `$set` the derived document onto it; otherwise
insert the derived document as a new record. -/
def processPhase2 (gw : Gateway) (conversation : String) (languages : List String)
    (u : UserDoc) (db : DB) (tr : List Eff) : Except PErr ProcResp × DB × List Eff :=
  let derived := generate_analytics gw u.id
  let tr1 := tr ++ [Eff.callExtractAnalytics, Eff.callDetectFollowUp,
    Eff.findAnalytics u.id]
  match db.analytics.find? (fun a => getField a.fields "user_id" == some (Val.vOid u.id)) with
  | some ex =>
    let derived2 := if getField ex.fields "follow_up" = none then
        setField derived "follow_up" (Val.vBool (detect_follow_up gw))
      else derived
    let tr2 := tr1 ++ (if getField ex.fields "follow_up" = none then
        [Eff.callDetectFollowUp]
      else [])
    let analytics2 := updateFirst
      (fun a => getField a.fields "user_id" == some (Val.vOid u.id))
      (fun a => AnalyticsRec.mk a.id (setFields a.fields derived2)) db.analytics
    let db1 := DB.mk db.nextId db.users analytics2 db.history
    processPhase3 conversation languages u db1 (tr2 ++ [Eff.updateAnalytics u.id])
      ex.id derived2
  | none =>
    let newRec := AnalyticsRec.mk db.nextId derived
    let db1 := DB.mk (db.nextId + 1) db.users (db.analytics ++ [newRec]) db.history
    processPhase3 conversation languages u db1 (tr1 ++ [Eff.insertAnalytics newRec.id])
      newRec.id derived

/-- The user lookup of phase 1 (src/main.py lines 657-667): look up by phone
when a phone is present, and by normalized email only when that lookup missed
(or there was no phone) and an email is present; the returned event list
records the lookups actually performed. -/
def lookupUser (phone email : Option String) (db : DB) :
    Option UserDoc × List Eff :=
  match phone with
  | some p =>
    match db.users.find? (fun u => u.phone_number == some ("91" ++ p)) with
    | some u => (some u, [Eff.findUserByPhone ("91" ++ p)])
    | none =>
      match email with
      | some e => (db.users.find? (fun u => u.email == pyStrip (pyLower e)),
          [Eff.findUserByPhone ("91" ++ p), Eff.findUserByEmail (pyStrip (pyLower e))])
      | none => (none, [Eff.findUserByPhone ("91" ++ p)])
  | none =>
    match email with
    | some e => (db.users.find? (fun u => u.email == pyStrip (pyLower e)),
        [Eff.findUserByEmail (pyStrip (pyLower e))])
    | none => (none, [])

/-- The remainder of phase 1 (src/main.py lines 646-684): detect languages,
run the user lookup, and fall back to `create_user_from_conversation`. -/
def processFindUser (gw : Gateway) (conversation : String)
    (phone email : Option String) (db : DB) (tr : List Eff) :
    Except PErr ProcResp × DB × List Eff :=
  let languages := detect_languages gw
  let tr3 := tr ++ [Eff.callDetectLanguages] ++ (lookupUser phone email db).2
  match (lookupUser phone email db).1 with
  | some u => processPhase2 gw conversation languages u db tr3
  | none =>
    match create_user_from_conversation gw phone email db with
    | (some u, db1, trc) => processPhase2 gw conversation languages u db1 (tr3 ++ trc)
    | (none, db1, trc) => (Except.error PErr.userCreationFailed, db1, tr3 ++ trc)

/-- `process_conversation` (src/main.py lines 614-777): reject a blank
conversation before any external call or store access; extract a phone number,
falling back to an email only when no phone is found; reject when neither can
be derived; then resolve the user and run phases 2 and 3. -/
def process_conversation (gw : Gateway) (conversation : String) (db : DB) :
    Except PErr ProcResp × DB × List Eff :=
  if conversation = "" ∨ pyStrip conversation = "" then
    (Except.error PErr.invalidInput, db, [])
  else
    match extract_phone_number gw with
    | some p => processFindUser gw conversation (some p) none db [Eff.callExtractPhone]
    | none =>
      match extract_email gw with
      | some e => processFindUser gw conversation none (some e) db
          [Eff.callExtractPhone, Eff.callExtractEmail]
      | none => (Except.error PErr.extractionFailed, db,
          [Eff.callExtractPhone, Eff.callExtractEmail])

/-! ## Claim-support definitions -/

/-- Effects that are neither a user email lookup nor a user insert (the two
operations the phone short-circuit must rule out). -/
def benignEff (e : Eff) : Prop :=
  match e with
  | Eff.findUserByEmail _ => False
  | Eff.insertUser _ => False
  | _ => True

/-- The update document of the analytics upsert: the derived analytics, with
`follow_up` freshly recomputed when the existing record lacks that field
(src/main.py lines 700-707). -/
def deriv2 (gw : Gateway) (u : UserDoc) (ex : AnalyticsRec) : List (String × Val) :=
  if getField ex.fields "follow_up" = none then
    setField (generate_analytics gw u.id) "follow_up" (Val.vBool (detect_follow_up gw))
  else generate_analytics gw u.id

/-- A store holding one user known only by email (no phone on record). -/
def c5db : DB := DB.mk 1 [UserDoc.mk 0 "A" "e@x" none] [] []

/-- First-call gateway: a phone is extracted, and the profile hint's email
matches the stored user. -/
def c5gw1 : Gateway :=
  Gateway.mk "9876543210" "NOT_FOUND" "N" "e@x" ["english"] false
    (some "India") (some "BOFU")

/-- Second-call gateway: the same phone, but a different profile email. -/
def c5gw2 : Gateway :=
  Gateway.mk "9876543210" "NOT_FOUND" "N" "f@y" ["english"] false
    (some "India") (some "BOFU")

/-- An empty store. -/
def c5dbEmpty : DB := DB.mk 0 [] [] []

/-- A gateway whose profile hint has no email, so the first call must insert
the user under the extracted phone. -/
def c5gwIns : Gateway :=
  Gateway.mk "9876543210" "NOT_FOUND" "A" "" ["english"] false none none

/-- The response of the first `c5gwIns` call on the empty store. -/
def c5r1 : ProcResp :=
  ProcResp.mk (UserDoc.mk 0 "A" "" (some "919876543210")) 1
    [("user_id", Val.vOid 0), ("country", Val.vStr ""),
     ("intent_level", Val.vStr "TOFU"), ("follow_up", Val.vBool false)] 2

/-- The store after the first `c5gwIns` call. -/
def c5db1 : DB := (process_conversation c5gwIns "hi" c5dbEmpty).2.1

/-- The trace of the first `c5gwIns` call. -/
def c5tr1 : List Eff := (process_conversation c5gwIns "hi" c5dbEmpty).2.2

/-- A gateway extracting the phone of the stored `c6db` user. -/
def c6gw : Gateway :=
  Gateway.mk "9876543210" "NOT_FOUND" "A" "a@x" ["english"] false
    (some "USA") (some "BOFU")

/-- An existing analytics record carrying a field (`legacy`) that the newly
derived document does not produce. -/
def c6ex : AnalyticsRec :=
  AnalyticsRec.mk 5
    [("user_id", Val.vOid 0), ("country", Val.vStr "India"),
     ("intent_level", Val.vStr "MOFU"), ("follow_up", Val.vBool true),
     ("legacy", Val.vStr "z")]

/-- A store holding one phone-keyed user and the `c6ex` analytics record. -/
def c6db : DB :=
  DB.mk 10 [UserDoc.mk 0 "A" "a@x" (some "919876543210")] [c6ex] []

/-! ## Theorems: phone normalizer -/

theorem strMk_data (s : String) : String.mk s.data = s := by
  cases s
  rfl

theorem mem_digitsOnlyL {l : List Char} {c : Char} (h : c ∈ digitsOnlyL l) :
    c.isDigit := (List.mem_filter.mp h).2

theorem digitsOnlyL_of_all {l : List Char} (h : ∀ c ∈ l, c.isDigit) :
    digitsOnlyL l = l := List.filter_eq_self.mpr h

theorem zfillL_length (w : Nat) (l : List Char) (h : l.length ≤ w) :
    (zfillL w l).length = w := by
  simp [zfillL]
  omega

theorem normPhoneL_all_digits (l : List Char) : ∀ c ∈ normPhoneL l, c.isDigit := by
  intro c hc
  unfold normPhoneL at hc
  split at hc
  · exact mem_digitsOnlyL (List.mem_of_mem_drop hc)
  · split at hc
    · exact mem_digitsOnlyL (List.mem_of_mem_drop hc)
    · split at hc
      · rcases List.mem_append.mp hc with h | h
        · have hc0 : c = '0' := List.eq_of_mem_replicate h
          subst hc0
          decide
        · exact mem_digitsOnlyL h
      · exact mem_digitsOnlyL hc

theorem normPhoneL_length (l : List Char)
    (h : ¬((digitsOnlyL l).take 2 = ['9', '1'] ∧ (digitsOnlyL l).length > 10 ∧
      (digitsOnlyL l).length ≠ 12)) :
    (normPhoneL l).length = 10 := by
  unfold normPhoneL
  split
  · rename_i h1
    have hlen : (digitsOnlyL l).length = 12 := by
      by_contra hne
      exact h ⟨h1.1, h1.2, hne⟩
    simp [hlen]
  · rename_i h1
    split
    · rename_i h2
      simp
      omega
    · rename_i h2
      split
      · rename_i h3
        exact zfillL_length 10 _ (by omega)
      · rename_i h3
        omega

theorem normPhoneL_idem_of_len10 (m : List Char) (hd : ∀ c ∈ m, c.isDigit)
    (hl : m.length = 10) : normPhoneL m = m := by
  have hm : digitsOnlyL m = m := digitsOnlyL_of_all hd
  unfold normPhoneL
  rw [hm, hl]
  simp

/-- C1: the claim that `normalize_phone_number` always returns exactly 10 digit
characters fails on the code: an 11-digit input starting with "91" yields 9
characters. This theorem evaluates the code at the failing input. -/
theorem c1_code_eval :
    normalize_phone_number "91123456789" = "123456789" ∧
    (normalize_phone_number "91123456789").length = 9 := by decide

/-- C2 counterexample: `normalize_phone_number` is not idempotent on the
digit-bearing input "91123456789" (first pass yields 9 digits, second pass
zero-pads them). -/
theorem c2_counterexample :
    normalize_phone_number (normalize_phone_number "91123456789") ≠
      normalize_phone_number "91123456789" := by decide

/-- C2 (amended): `normalize_phone_number` is idempotent on every input whose
digit string does not both start with "91" and have a length greater than 10
other than exactly 12 (the excluded inputs are exactly those the 11-digit
counterexample generalizes to). -/
theorem c2_amended (s : String)
    (h : ¬((digitsOnlyL s.data).take 2 = ['9', '1'] ∧
      (digitsOnlyL s.data).length > 10 ∧ (digitsOnlyL s.data).length ≠ 12)) :
    normalize_phone_number (normalize_phone_number s) = normalize_phone_number s := by
  have hidem := normPhoneL_idem_of_len10 (normPhoneL s.data)
    (normPhoneL_all_digits s.data) (normPhoneL_length s.data h)
  show String.mk (normPhoneL (normPhoneL s.data)) = String.mk (normPhoneL s.data)
  exact congrArg String.mk hidem

/-- C2 witness: the amended idempotence at the concrete input "+91 98765 43210". -/
theorem c2_witness :
    normalize_phone_number (normalize_phone_number "+91 98765 43210") =
      normalize_phone_number "+91 98765 43210" :=
  c2_amended "+91 98765 43210" (by decide)

/-- C3: the cases of `normalize_phone_number` apply in order: a digit string
starting with "91" of length > 10 has its leading two characters dropped (not
the last-10 rule); an overlong digit string not starting with "91" keeps its
last 10 digits; a 10-digit string starting with "91" is returned unchanged;
a short digit string is left-padded with "0" to width 10; in particular
`normalize_phone_number "123456789012" = "3456789012"` and
`normalize_phone_number "12345" = "0000012345"`. -/
theorem c3_case_order :
    (∀ s : String, (digitsOnlyL s.data).take 2 = ['9', '1'] →
      (digitsOnlyL s.data).length > 10 →
      normalize_phone_number s = String.mk ((digitsOnlyL s.data).drop 2)) ∧
    (∀ s : String, (digitsOnlyL s.data).length > 10 →
      (digitsOnlyL s.data).take 2 ≠ ['9', '1'] →
      normalize_phone_number s =
        String.mk ((digitsOnlyL s.data).drop ((digitsOnlyL s.data).length - 10))) ∧
    (∀ s : String, (∀ c ∈ s.data, c.isDigit) → s.data.take 2 = ['9', '1'] →
      s.length = 10 → normalize_phone_number s = s) ∧
    (∀ s : String, (∀ c ∈ s.data, c.isDigit) → s.length < 10 →
      normalize_phone_number s = String.mk (zfillL 10 s.data)) ∧
    normalize_phone_number "123456789012" = "3456789012" ∧
    normalize_phone_number "12345" = "0000012345" := by
  refine ⟨?_, ?_, ?_, ?_, by decide, by decide⟩
  · intro s h1 h2
    unfold normalize_phone_number normPhoneL
    rw [if_pos ⟨h1, h2⟩]
  · intro s h1 h2
    unfold normalize_phone_number normPhoneL
    rw [if_neg (by tauto), if_pos h1]
  · intro s hall h91 hlen
    have hm : digitsOnlyL s.data = s.data := digitsOnlyL_of_all hall
    have hlen' : s.data.length = 10 := hlen
    unfold normalize_phone_number normPhoneL
    rw [hm, hlen', h91]
    simp [strMk_data]
  · intro s hall hlen
    have hm : digitsOnlyL s.data = s.data := digitsOnlyL_of_all hall
    have hlen' : s.data.length < 10 := hlen
    unfold normalize_phone_number normPhoneL
    rw [hm]
    rw [if_neg (by omega), if_neg (by omega), if_pos hlen']

/-- C3 witness: the case order at concrete inputs ("91"-prefixed overlong input
versus a 10-digit "91"-prefixed input). -/
theorem c3_witness :
    normalize_phone_number "911234567890" = "1234567890" ∧
    normalize_phone_number "9112345678" = "9112345678" := by
  constructor
  · rw [c3_case_order.1 "911234567890" (by decide) (by decide)]
    decide
  · exact c3_case_order.2.2.1 "9112345678" (by decide) (by decide) (by decide)

/-! ## Theorems: conversation tag normalizer -/

theorem skipSpaces_idem (l : List Char) : skipSpaces (skipSpaces l) = skipSpaces l := by
  induction l with
  | nil => rfl
  | cons c cs ih =>
    by_cases hc : pySpace c
    · rw [show skipSpaces (c :: cs) = skipSpaces cs from by simp [skipSpaces, hc]]
      exact ih
    · rw [show skipSpaces (c :: cs) = c :: cs from by simp [skipSpaces, hc]]
      simp [skipSpaces, hc]

theorem colonRest_skip {s g : List Char} (h : colonRest s = some g) :
    skipSpaces g = g := by
  unfold colonRest at h
  rcases Option.map_eq_some'.mp h with ⟨rest, _, hg⟩
  rw [← hg]
  exact skipSpaces_idem rest

theorem agentMatch_skip {l g : List Char} (h : agentMatch l = some g) :
    skipSpaces g = g := by
  unfold agentMatch at h
  rcases Option.bind_eq_some.mp h with ⟨m, _, hc⟩
  exact colonRest_skip hc

theorem userMatch_skip {l g : List Char} (h : userMatch l = some g) :
    skipSpaces g = g := by
  unfold userMatch at h
  rcases Option.bind_eq_some.mp h with ⟨m, _, hc⟩
  exact colonRest_skip hc

theorem normLine_idem (l : List Char) : normLine (normLine l) = normLine l := by
  cases hA : agentMatch l with
  | some g =>
    have hg : skipSpaces g = g := agentMatch_skip hA
    have hl : normLine l = "Agent: ".data ++ g := by
      simp [normLine, hA]
    have h1 : agentMatch ('A' :: 'g' :: 'e' :: 'n' :: 't' :: ':' :: ' ' :: g) =
        some (skipSpaces g) := rfl
    rw [hg] at h1
    rw [hl]
    show normLine ('A' :: 'g' :: 'e' :: 'n' :: 't' :: ':' :: ' ' :: g) =
      'A' :: 'g' :: 'e' :: 'n' :: 't' :: ':' :: ' ' :: g
    simp [normLine, h1]
  | none =>
    cases hU : userMatch l with
    | some g =>
      have hg : skipSpaces g = g := userMatch_skip hU
      have hl : normLine l = "User: ".data ++ g := by
        simp [normLine, hA, hU]
      have h1 : agentMatch ('U' :: 's' :: 'e' :: 'r' :: ':' :: ' ' :: g) = none := rfl
      have h2 : userMatch ('U' :: 's' :: 'e' :: 'r' :: ':' :: ' ' :: g) =
          some (skipSpaces g) := rfl
      rw [hg] at h2
      rw [hl]
      show normLine ('U' :: 's' :: 'e' :: 'r' :: ':' :: ' ' :: g) =
        'U' :: 's' :: 'e' :: 'r' :: ':' :: ' ' :: g
      simp [normLine, h1, h2]
    | none =>
      have hl : normLine l = l := by
        simp [normLine, hA, hU]
      rw [hl]
      exact hl

theorem skipSpaces_suffix (l : List Char) : skipSpaces l <:+ l := by
  induction l with
  | nil => exact List.suffix_rfl
  | cons c cs ih =>
    by_cases hc : pySpace c
    · rw [show skipSpaces (c :: cs) = skipSpaces cs from by simp [skipSpaces, hc]]
      exact ih.trans (List.suffix_cons c cs)
    · rw [show skipSpaces (c :: cs) = c :: cs from by simp [skipSpaces, hc]]

theorem matchCI_suffix {p s r : List Char} (h : matchCI p s = some r) : r <:+ s := by
  induction p generalizing s with
  | nil =>
    unfold matchCI at h
    injection h with h
    rw [h]
  | cons q qs ih =>
    cases s with
    | nil => exact absurd h (by simp [matchCI])
    | cons c cs =>
      unfold matchCI at h
      split at h
      · exact (ih h).trans (List.suffix_cons c cs)
      · exact absurd h (by simp)

theorem expectChar_suffix {c : Char} {s r : List Char} (h : expectChar c s = some r) :
    r <:+ s := by
  cases s with
  | nil => exact absurd h (by simp [expectChar])
  | cons d rest =>
    have h' : (if d = c then some rest else none) = some r := h
    split at h'
    · injection h' with hr
      subst hr
      exact List.suffix_cons d rest
    · exact absurd h' (by simp)

theorem takeToClose_suffix {s r : List Char} (h : takeToClose s = some r) : r <:+ s := by
  induction s with
  | nil => exact absurd h (by simp [takeToClose])
  | cons c cs ih =>
    unfold takeToClose at h
    split at h
    · injection h with hr
      subst hr
      exact List.suffix_cons c cs
    · exact (ih h).trans (List.suffix_cons c cs)

theorem matchParenAgent_suffix {s r : List Char} (h : matchParenAgent s = some r) :
    r <:+ s := by
  unfold matchParenAgent at h
  rcases Option.bind_eq_some.mp h with ⟨r1, h1, h2⟩
  rcases Option.bind_eq_some.mp h2 with ⟨r2, h3, h4⟩
  exact ((expectChar_suffix h4).trans (matchCI_suffix h3)).trans (expectChar_suffix h1)

theorem matchParenAny_suffix {s r : List Char} (h : matchParenAny s = some r) :
    r <:+ s := by
  unfold matchParenAny at h
  rcases Option.bind_eq_some.mp h with ⟨r1, h1, h2⟩
  exact (takeToClose_suffix h2).trans (expectChar_suffix h1)

theorem colonRest_suffix {s g : List Char} (h : colonRest s = some g) : g <:+ s := by
  unfold colonRest at h
  rcases Option.map_eq_some'.mp h with ⟨rest, hrest, hg⟩
  rw [← hg]
  exact ((skipSpaces_suffix rest).trans (expectChar_suffix hrest)).trans
    (skipSpaces_suffix s)

theorem agentHead_suffix {s r : List Char} (h : agentHead s = some r) : r <:+ s := by
  unfold agentHead at h
  split at h
  · rename_i heq
    injection h with h
    subst h
    rcases Option.bind_eq_some.mp heq with ⟨m, hm, hp⟩
    exact ((matchParenAgent_suffix hp).trans (skipSpaces_suffix m)).trans
      (matchCI_suffix hm)
  · split at h
    · rename_i heq
      injection h with h
      subst h
      rcases Option.bind_eq_some.mp heq with ⟨m, hm, hp⟩
      exact ((matchParenAny_suffix hp).trans (skipSpaces_suffix m)).trans
        (matchCI_suffix hm)
    · split at h
      · rename_i heq
        injection h with h
        subst h
        exact matchCI_suffix heq
      · exact matchCI_suffix h

theorem agentMatch_suffix {l g : List Char} (h : agentMatch l = some g) : g <:+ l := by
  unfold agentMatch at h
  rcases Option.bind_eq_some.mp h with ⟨m, hm, hc⟩
  exact (colonRest_suffix hc).trans (agentHead_suffix hm)

theorem userMatch_suffix {l g : List Char} (h : userMatch l = some g) : g <:+ l := by
  unfold userMatch at h
  rcases Option.bind_eq_some.mp h with ⟨m, hm, hc⟩
  exact (colonRest_suffix hc).trans (matchCI_suffix hm)

theorem noNl_normLine {l : List Char} (h : '\n' ∉ l) : '\n' ∉ normLine l := by
  unfold normLine
  split
  · rename_i g hg
    intro hmem
    rcases List.mem_append.mp hmem with hx | hx
    · exact absurd hx (by decide)
    · exact h ((agentMatch_suffix hg).subset hx)
  · split
    · rename_i g hg
      intro hmem
      rcases List.mem_append.mp hmem with hx | hx
      · exact absurd hx (by decide)
      · exact h ((userMatch_suffix hg).subset hx)
    · exact h

theorem splitOnC_ne_nil (sep : Char) (s : List Char) : splitOnC sep s ≠ [] := by
  cases s with
  | nil => simp [splitOnC]
  | cons c cs =>
    unfold splitOnC
    split
    · simp
    · split
      · simp
      · simp

theorem mem_splitOnC_no_sep {sep : Char} {s l : List Char}
    (h : l ∈ splitOnC sep s) : sep ∉ l := by
  induction s generalizing l with
  | nil =>
    unfold splitOnC at h
    simp at h
    subst h
    simp
  | cons c cs ih =>
    unfold splitOnC at h
    split at h
    · rcases List.mem_cons.mp h with hx | hx
      · subst hx
        simp
      · exact ih hx
    · rename_i hcsep
      split at h
      · rename_i heq
        exact absurd heq (splitOnC_ne_nil sep cs)
      · rename_i l0 ls heq
        rcases List.mem_cons.mp h with hx | hx
        · subst hx
          intro hmem
          rcases List.mem_cons.mp hmem with hy | hy
          · exact hcsep hy.symm
          · exact ih (heq ▸ List.mem_cons_self l0 ls) hy
        · exact ih (heq ▸ List.mem_cons_of_mem l0 hx)

theorem splitOnC_no_sep {sep : Char} {l : List Char} (h : sep ∉ l) :
    splitOnC sep l = [l] := by
  induction l with
  | nil => rfl
  | cons c cs ih =>
    have hc : ¬(c = sep) := fun hx => h (hx ▸ List.mem_cons_self c cs)
    have hcs : sep ∉ cs := fun hx => h (List.mem_cons_of_mem c hx)
    unfold splitOnC
    rw [if_neg hc, ih hcs]

theorem splitOnC_append_sep {sep : Char} {l : List Char} (t : List Char)
    (h : sep ∉ l) : splitOnC sep (l ++ sep :: t) = l :: splitOnC sep t := by
  induction l with
  | nil =>
    show splitOnC sep (sep :: t) = [] :: splitOnC sep t
    simp only [splitOnC]
    simp
  | cons c cs ih =>
    have hc : ¬(c = sep) := fun hx => h (hx ▸ List.mem_cons_self c cs)
    have hcs : sep ∉ cs := fun hx => h (List.mem_cons_of_mem c hx)
    show splitOnC sep (c :: (cs ++ sep :: t)) = (c :: cs) :: splitOnC sep t
    simp only [splitOnC]
    rw [ih hcs]
    simp [hc]

theorem splitOnC_joinC {sep : Char} {ls : List (List Char)}
    (h : ∀ l ∈ ls, sep ∉ l) (hne : ls ≠ []) :
    splitOnC sep (joinC sep ls) = ls := by
  induction ls with
  | nil => exact absurd rfl hne
  | cons l ls' ih =>
    cases ls' with
    | nil =>
      show splitOnC sep (joinC sep [l]) = [l]
      rw [show joinC sep [l] = l from rfl]
      exact splitOnC_no_sep (h l (List.mem_cons_self l []))
    | cons l' ls'' =>
      rw [show joinC sep (l :: l' :: ls'') = l ++ sep :: joinC sep (l' :: ls'') from rfl]
      rw [splitOnC_append_sep _ (h l (List.mem_cons_self l _))]
      rw [ih (fun x hx => h x (List.mem_cons_of_mem l hx)) (by simp)]

theorem splitOnC_normTagsL (s : List Char) :
    splitOnC '\n' (normTagsL s) = (splitOnC '\n' s).map normLine := by
  unfold normTagsL
  apply splitOnC_joinC
  · intro l hl
    rcases List.mem_map.mp hl with ⟨l0, hl0, hrec⟩
    rw [← hrec]
    exact noNl_normLine (mem_splitOnC_no_sep hl0)
  · simp [splitOnC_ne_nil]

/-- C9: `normalize_conversation_tags` is idempotent (in particular on
already-canonical input): applying it twice equals applying it once, for every
input string. -/
theorem c9_idempotent (x : String) :
    normalize_conversation_tags (normalize_conversation_tags x) =
      normalize_conversation_tags x := by
  show String.mk (normTagsL (normTagsL x.data)) = String.mk (normTagsL x.data)
  refine congrArg String.mk ?_
  conv_lhs => rw [normTagsL, splitOnC_normTagsL, List.map_map]
  rw [normTagsL]
  refine congrArg (joinC '\n') ?_
  refine List.map_congr_left ?_
  intro l _
  exact normLine_idem l

/-- C8: `normalize_conversation_tags` processes the input line by line with no
cross-line state; an agent-pattern line becomes `Agent: <remainder>`, a
remaining `User:` line becomes `User: <remainder>`, every other line is left
unchanged; the pattern forms are matched case-insensitively, and
`normalize_conversation_tags "Natalie (Agent): Hello\nUser: Hi"` equals
`"Agent: Hello\nUser: Hi"`. -/
theorem c8_tags :
    (∀ s : String, normalize_conversation_tags s =
        String.mk (joinC '\n' ((splitOnC '\n' s.data).map normLine))) ∧
    (∀ l g, agentMatch l = some g → normLine l = "Agent: ".data ++ g) ∧
    (∀ l g, agentMatch l = none → userMatch l = some g →
        normLine l = "User: ".data ++ g) ∧
    (∀ l, agentMatch l = none → userMatch l = none → normLine l = l) ∧
    normalize_conversation_tags "Natalie (Agent): Hello\nUser: Hi" =
      "Agent: Hello\nUser: Hi" ∧
    normalize_conversation_tags "Agent (Natalie): a" = "Agent: a" ∧
    normalize_conversation_tags "AGENT: b" = "Agent: b" ∧
    normalize_conversation_tags "natalie: c" = "Agent: c" ∧
    normalize_conversation_tags "uSeR: d" = "User: d" ∧
    normalize_conversation_tags "plain narration\n\nUser: e" =
      "plain narration\n\nUser: e" := by
  refine ⟨fun s => rfl, ?_, ?_, ?_, by decide, by decide, by decide, by decide,
    by decide, by decide⟩
  · intro l g hg
    simp [normLine, hg]
  · intro l g hA hU
    simp [normLine, hA, hU]
  · intro l hA hU
    simp [normLine, hA, hU]

/-- C8 witness: the per-line rewriting rules applied at concrete lines. -/
theorem c8_witness :
    normLine "Natalie: hi".data = "Agent: hi".data ∧
    normLine "just narration".data = "just narration".data := by
  constructor
  · rw [c8_tags.2.1 "Natalie: hi".data "hi".data (by decide)]
    decide
  · exact c8_tags.2.2.2.1 "just narration".data (by decide) (by decide)

/-- C10: `normalize_conversation_tags` preserves the line structure of its
input: the output, split on newline, has exactly as many lines as the input,
line `i` of the output is the per-line rewrite of line `i` of the input, and a
line matching neither speaker pattern (including a blank line) is unchanged at
its position. -/
theorem c10_line_structure (s : String) :
    (splitOnC '\n' (normalize_conversation_tags s).data).length =
      (splitOnC '\n' s.data).length ∧
    ∀ i (h1 : i < (splitOnC '\n' (normalize_conversation_tags s).data).length)
      (h2 : i < (splitOnC '\n' s.data).length),
      (splitOnC '\n' (normalize_conversation_tags s).data).get ⟨i, h1⟩ =
        normLine ((splitOnC '\n' s.data).get ⟨i, h2⟩) ∧
      (agentMatch ((splitOnC '\n' s.data).get ⟨i, h2⟩) = none →
        userMatch ((splitOnC '\n' s.data).get ⟨i, h2⟩) = none →
        (splitOnC '\n' (normalize_conversation_tags s).data).get ⟨i, h1⟩ =
          (splitOnC '\n' s.data).get ⟨i, h2⟩) := by
  have key : splitOnC '\n' (normalize_conversation_tags s).data =
      (splitOnC '\n' s.data).map normLine := splitOnC_normTagsL s.data
  constructor
  · rw [key, List.length_map]
  · intro i h1 h2
    have hget : (splitOnC '\n' (normalize_conversation_tags s).data).get ⟨i, h1⟩ =
        normLine ((splitOnC '\n' s.data).get ⟨i, h2⟩) := by
      simp only [List.get_eq_getElem, key, List.getElem_map]
    refine ⟨hget, fun hA hU => ?_⟩
    rw [hget]
    simp only [List.get_eq_getElem] at hA hU
    simp [normLine, hA, hU]

/-- C10 witness: line-structure preservation at a concrete three-line input
whose middle line is blank and whose first line matches neither pattern. -/
theorem c10_witness :
    (splitOnC '\n' (normalize_conversation_tags "hello\n\nUser: hi").data).length =
      (splitOnC '\n' "hello\n\nUser: hi".data).length ∧
    (splitOnC '\n' (normalize_conversation_tags "hello\n\nUser: hi").data).get
        ⟨0, by decide⟩ = (splitOnC '\n' "hello\n\nUser: hi".data).get ⟨0, by decide⟩ := by
  refine ⟨(c10_line_structure "hello\n\nUser: hi").1, ?_⟩
  exact ((c10_line_structure "hello\n\nUser: hi").2 0 (by decide) (by decide)).2
    (by decide) (by decide)

/-! ## Theorems: error handling of the pipeline entry point -/

/-- C7: a blank conversation is rejected with `invalidInput` before any
external call or store operation (empty trace, store unchanged); when neither
a phone number nor an email can be derived, the request is rejected with
`extractionFailed` after only the two extraction calls, with no store
operation and no write (store unchanged). -/
theorem c7_error_handling :
    (∀ (gw : Gateway) (conv : String) (db : DB), (conv = "" ∨ pyStrip conv = "") →
      process_conversation gw conv db = (Except.error PErr.invalidInput, db, [])) ∧
    (∀ (gw : Gateway) (conv : String) (db : DB), ¬(conv = "" ∨ pyStrip conv = "") →
      extract_phone_number gw = none → extract_email gw = none →
      process_conversation gw conv db = (Except.error PErr.extractionFailed, db,
        [Eff.callExtractPhone, Eff.callExtractEmail])) := by
  constructor
  · intro gw conv db h
    simp only [process_conversation, if_pos h]
  · intro gw conv db h hp he
    simp only [process_conversation, if_neg h, hp, he]

/-- C7 witness: the two rejection paths at concrete inputs. -/
theorem c7_witness :
    process_conversation (Gateway.mk "NOT_FOUND" "NOT_FOUND" "" "" [] false none none)
        " " (DB.mk 0 [] [] []) =
      (Except.error PErr.invalidInput, DB.mk 0 [] [] [], []) ∧
    process_conversation (Gateway.mk "NOT_FOUND" "NOT_FOUND" "" "" [] false none none)
        "x" (DB.mk 0 [] [] []) =
      (Except.error PErr.extractionFailed, DB.mk 0 [] [] [],
        [Eff.callExtractPhone, Eff.callExtractEmail]) := by
  constructor
  · exact c7_error_handling.1 _ " " _ (by decide)
  · exact c7_error_handling.2 _ "x" _ (by decide) (by decide) (by decide)

/-! ## Theorems: user-record phone invariant (C4) -/

theorem extract_phone_spec {gw : Gateway} {p : String}
    (h : extract_phone_number gw = some p) :
    p.length = 10 ∧ ∀ c ∈ p.data, c.isDigit := by
  simp only [extract_phone_number] at h
  split at h
  · exact absurd h (by simp)
  · split at h
    · exact absurd h (by simp)
    · rename_i hne hlen
      injection h with hp
      subst hp
      refine ⟨by omega, ?_⟩
      show ∀ c ∈ normPhoneL (pyStrip gw.phoneResp).data, c.isDigit
      exact normPhoneL_all_digits _

theorem create_user_users {gw : Gateway} {ph em : Option String} {db : DB} :
    ∀ u ∈ (create_user_from_conversation gw ph em db).2.1.users,
      u ∈ db.users ∨ u.phone_number = ph.map (fun p => "91" ++ p) := by
  intro u hu
  simp only [create_user_from_conversation] at hu
  split at hu
  · exact Or.inl hu
  · split at hu
    · exact Or.inl hu
    · rcases List.mem_append.mp hu with h | h
      · exact Or.inl h
      · simp only [List.mem_singleton] at h
        subst h
        exact Or.inr rfl

theorem processPhase3_spec (conversation : String) (languages : List String)
    (u : UserDoc) (db : DB) (tr : List Eff) (aid : Nat) (af : List (String × Val)) :
    processPhase3 conversation languages u db tr aid af =
      (Except.ok (ProcResp.mk u aid af db.nextId),
       DB.mk (db.nextId + 1) db.users db.analytics (db.history ++
         [HistoryRec.mk db.nextId u.id (normalize_conversation_tags conversation)
           languages]),
       tr ++ [Eff.insertHistory db.nextId]) := rfl

theorem processPhase2_users (gw : Gateway) (conversation : String)
    (languages : List String) (u : UserDoc) (db : DB) (tr : List Eff) :
    (processPhase2 gw conversation languages u db tr).2.1.users = db.users := by
  simp only [processPhase2]
  split
  · rw [processPhase3_spec]
  · rw [processPhase3_spec]

theorem processFindUser_users {gw : Gateway} {conversation : String}
    {phone email : Option String} {db : DB} {tr : List Eff} :
    ∀ u ∈ (processFindUser gw conversation phone email db tr).2.1.users,
      u ∈ db.users ∨ u.phone_number = phone.map (fun p => "91" ++ p) := by
  intro u hu
  simp only [processFindUser] at hu
  split at hu
  · rw [processPhase2_users] at hu
    exact Or.inl hu
  · split at hu
    · rename_i u' db1 trc heq
      rw [processPhase2_users] at hu
      exact @create_user_users gw phone email db u (by rw [heq]; exact hu)
    · rename_i db1 trc heq
      exact @create_user_users gw phone email db u (by rw [heq]; exact hu)

/-- C4: every user record the pipeline inserts with a phone number has
`phone_number` equal to `"91"` followed by exactly 10 digit characters. -/
theorem c4_phone_invariant (gw : Gateway) (conv : String) (db : DB) (u : UserDoc)
    (s : String) (hu : u ∈ (process_conversation gw conv db).2.1.users)
    (hnew : u ∉ db.users) (hs : u.phone_number = some s) :
    s.length = 12 ∧ s.data.take 2 = ['9', '1'] ∧ ∀ c ∈ s.data, c.isDigit := by
  simp only [process_conversation] at hu
  split at hu
  · exact absurd hu hnew
  · rename_i hnb
    cases hp : extract_phone_number gw with
    | some p =>
      rw [hp] at hu
      rcases processFindUser_users u hu with h | h
      · exact absurd h hnew
      · rw [hs] at h
        simp only [Option.map_some'] at h
        injection h with h
        subst h
        obtain ⟨hlen, hdig⟩ := extract_phone_spec hp
        refine ⟨?_, ?_, ?_⟩
        · rw [String.length_append, hlen]
          decide
        · rw [String.data_append]
          rfl
        · intro c hc
          rw [String.data_append] at hc
          rcases List.mem_append.mp hc with h91 | hp'
          · have h2 : c = '9' ∨ c = '1' := by simpa using h91
            rcases h2 with rfl | rfl <;> decide
          · exact hdig c hp'
    | none =>
      rw [hp] at hu
      cases he : extract_email gw with
      | some e =>
        rw [he] at hu
        rcases processFindUser_users u hu with h | h
        · exact absurd h hnew
        · rw [hs] at h
          simp at h
      | none =>
        rw [he] at hu
        exact absurd hu hnew

/-- C4 witness: on an empty store, a call carrying the phone
"+91 98765 43210" inserts a user whose `phone_number` is "91" followed by 10
digits. -/
theorem c4_witness :
    UserDoc.mk 0 "A" "" (some "919876543210") ∈
      (process_conversation
        (Gateway.mk "+91 98765 43210" "NOT_FOUND" "A" "" ["english"] false none none)
        "User: hi" (DB.mk 0 [] [] [])).2.1.users ∧
    ("919876543210".length = 12 ∧ "919876543210".data.take 2 = ['9', '1'] ∧
      ∀ c ∈ "919876543210".data, c.isDigit) :=
  ⟨by decide,
   c4_phone_invariant
     (Gateway.mk "+91 98765 43210" "NOT_FOUND" "A" "" ["english"] false none none)
     "User: hi" (DB.mk 0 [] [] []) (UserDoc.mk 0 "A" "" (some "919876543210"))
     "919876543210" (by decide) (by decide) rfl⟩

/-! ## Theorems: identity resolution (C5) -/

theorem find?_eq_of_unique {α : Type} {p : α → Bool} {l : List α} {u : α}
    (hu : u ∈ l) (hp : p u = true) (huniq : ∀ v ∈ l, p v = true → v = u) :
    l.find? p = some u := by
  induction l with
  | nil => exact absurd hu (List.not_mem_nil u)
  | cons a rest ih =>
    rw [List.find?_cons]
    cases ha : p a with
    | true =>
      simp only [cond_true]
      rw [huniq a (List.mem_cons_self a rest) ha]
    | false =>
      simp only [cond_false]
      have hu' : u ∈ rest := by
        rcases List.mem_cons.mp hu with h | h
        · subst h
          rw [hp] at ha
          exact absurd ha (by simp)
        · exact h
      exact ih hu' (fun v hv hpv => huniq v (List.mem_cons_of_mem a hv) hpv)

theorem processPhase2_spec (gw : Gateway) (conversation : String)
    (languages : List String) (u : UserDoc) (db : DB) (tr : List Eff) :
    ∃ r db' ext, processPhase2 gw conversation languages u db tr =
        (Except.ok r, db', tr ++ ext) ∧ r.user = u ∧ db'.users = db.users ∧
        ∀ e ∈ ext, benignEff e := by
  simp only [processPhase2]
  split
  · rename_i ex hex
    rw [processPhase3_spec]
    simp only [List.append_assoc]
    refine ⟨_, _, _, rfl, rfl, rfl, ?_⟩
    intro e he
    by_cases hf : getField ex.fields "follow_up" = none
    · simp [hf] at he
      rcases he with rfl | rfl | rfl | rfl | rfl | rfl <;> exact trivial
    · simp [hf] at he
      rcases he with rfl | rfl | rfl | rfl | rfl <;> exact trivial
  · rename_i hex
    rw [processPhase3_spec]
    simp only [List.append_assoc]
    refine ⟨_, _, _, rfl, rfl, rfl, ?_⟩
    intro e he
    simp at he
    rcases he with rfl | rfl | rfl | rfl | rfl <;> exact trivial

theorem mem_of_ifFind {c : Prop} [Decidable c] {p : UserDoc → Bool}
    {l : List UserDoc} {u : UserDoc}
    (h : (if c then none else l.find? p) = some u) : u ∈ l := by
  split at h
  · exact absurd h (by simp)
  · exact List.mem_of_find?_eq_some h

theorem lookupUser_mem {phone email : Option String} {db : DB} {u : UserDoc}
    (h : (lookupUser phone email db).1 = some u) : u ∈ db.users := by
  unfold lookupUser at h
  split at h
  · split at h
    · rename_i u' hfind
      simp at h
      subst h
      exact List.mem_of_find?_eq_some hfind
    · split at h
      · simp at h
        exact List.mem_of_find?_eq_some h
      · simp at h
  · split at h
    · simp at h
      exact List.mem_of_find?_eq_some h
    · simp at h

theorem create_user_mem {gw : Gateway} {ph em : Option String} {db : DB}
    {u : UserDoc} {db1 : DB} {trc : List Eff}
    (h : create_user_from_conversation gw ph em db = (some u, db1, trc)) :
    u ∈ db1.users := by
  simp only [create_user_from_conversation] at h
  split at h
  · rename_i u' hfind
    simp only [Prod.mk.injEq] at h
    obtain ⟨h1, h2, _⟩ := h
    injection h1 with h1
    subst h1
    subst h2
    split at hfind
    · exact List.mem_of_find?_eq_some hfind
    · exact absurd hfind (by simp)
  · split at h
    · rename_i u' hfind
      simp only [Prod.mk.injEq] at h
      obtain ⟨h1, h2, _⟩ := h
      injection h1 with h1
      subst h1
      subst h2
      exact mem_of_ifFind hfind
    · simp only [Prod.mk.injEq] at h
      obtain ⟨h1, h2, _⟩ := h
      injection h1 with h1
      subst h1
      subst h2
      exact List.mem_append.mpr (Or.inr (List.mem_singleton.mpr rfl))

theorem processFindUser_ok_user_mem {gw : Gateway} {conversation : String}
    {phone email : Option String} {db : DB} {tr : List Eff} {r : ProcResp}
    {db' : DB} {tr' : List Eff}
    (h : processFindUser gw conversation phone email db tr = (Except.ok r, db', tr')) :
    r.user ∈ db'.users := by
  simp only [processFindUser] at h
  split at h
  · rename_i u hu
    obtain ⟨r0, db0, ext, heq, hru, hus, _⟩ :=
      processPhase2_spec gw conversation (detect_languages gw) u db
        (tr ++ [Eff.callDetectLanguages] ++ (lookupUser phone email db).2)
    rw [heq] at h
    simp only [Prod.mk.injEq] at h
    obtain ⟨h1, h2, _⟩ := h
    injection h1 with h1
    subst h1
    subst h2
    rw [hru, hus]
    exact lookupUser_mem hu
  · split at h
    · rename_i u' db1 trc heq2
      obtain ⟨r0, db0, ext, heq, hru, hus, _⟩ :=
        processPhase2_spec gw conversation (detect_languages gw) u' db1
          (tr ++ [Eff.callDetectLanguages] ++ (lookupUser phone email db).2 ++ trc)
      rw [heq] at h
      simp only [Prod.mk.injEq] at h
      obtain ⟨h1, h2, _⟩ := h
      injection h1 with h1
      subst h1
      subst h2
      rw [hru, hus]
      exact create_user_mem heq2
    · simp at h

theorem process_ok_user_mem {gw : Gateway} {conv : String} {db : DB} {r : ProcResp}
    {db' : DB} {tr : List Eff}
    (h : process_conversation gw conv db = (Except.ok r, db', tr)) :
    r.user ∈ db'.users := by
  simp only [process_conversation] at h
  split at h
  · simp at h
  · split at h
    · exact processFindUser_ok_user_mem h
    · split at h
      · exact processFindUser_ok_user_mem h
      · simp at h

/-- C5 (amended): for two successive pipeline calls supplying the same phone
number, if the user returned by the first call carries `phone_number`
`"91"+phone` and no other stored user shares it — which holds in particular
whenever the first call inserted a new user under that phone — then the second
call succeeds, returns that same user, performs no email lookup, and inserts
no user record; this is the phone-lookup short-circuit. -/
theorem c5_amended (gw1 gw2 : Gateway) (conv1 conv2 : String) (db0 db1 : DB)
    (r1 : ProcResp) (tr1 : List Eff) (p : String)
    (h1 : process_conversation gw1 conv1 db0 = (Except.ok r1, db1, tr1))
    (hp2 : extract_phone_number gw2 = some p)
    (hph : r1.user.phone_number = some ("91" ++ p))
    (huniq : ∀ v ∈ db1.users, v.phone_number = some ("91" ++ p) → v = r1.user)
    (hnb : ¬(conv2 = "" ∨ pyStrip conv2 = "")) :
    ∃ r2 db2 tr2, process_conversation gw2 conv2 db1 = (Except.ok r2, db2, tr2) ∧
      r2.user = r1.user ∧ db2.users = db1.users ∧
      (∀ e, Eff.findUserByEmail e ∉ tr2) ∧ (∀ i, Eff.insertUser i ∉ tr2) := by
  have hmem1 : r1.user ∈ db1.users := process_ok_user_mem h1
  have hfind : db1.users.find? (fun v => v.phone_number == some ("91" ++ p)) =
      some r1.user := by
    apply find?_eq_of_unique hmem1
    · simp [hph]
    · intro v hv hpv
      exact huniq v hv (by simpa using hpv)
  have hlk : lookupUser (some p) none db1 =
      (some r1.user, [Eff.findUserByPhone ("91" ++ p)]) := by
    simp only [lookupUser, hfind]
  have hrun : process_conversation gw2 conv2 db1 =
      processPhase2 gw2 conv2 (detect_languages gw2) r1.user db1
        ([Eff.callExtractPhone] ++ [Eff.callDetectLanguages] ++
          [Eff.findUserByPhone ("91" ++ p)]) := by
    simp only [process_conversation, if_neg hnb, hp2, processFindUser, hlk]
  obtain ⟨r0, db0', ext, heq, hru, hus, hben⟩ :=
    processPhase2_spec gw2 conv2 (detect_languages gw2) r1.user db1
      ([Eff.callExtractPhone] ++ [Eff.callDetectLanguages] ++
        [Eff.findUserByPhone ("91" ++ p)])
  refine ⟨r0, db0', _, hrun.trans heq, hru, hus, ?_, ?_⟩
  · intro e hmem
    rcases List.mem_append.mp hmem with hx | hx
    · simp at hx
    · exact hben _ hx
  · intro i hmem
    rcases List.mem_append.mp hmem with hx | hx
    · simp at hx
    · exact hben _ hx

/-- C5 counterexample: two successive calls supplying the same phone
("9876543210").  The first call resolves to the stored email-only user (id 0)
without persisting the phone; the second call, whose profile hint carries a
different email, inserts a brand-new user (id 3) — so the second call neither
returns the same user identifier nor avoids inserting a User record. -/
theorem c5_counterexample :
    extract_phone_number c5gw1 = some "9876543210" ∧
    extract_phone_number c5gw2 = some "9876543210" ∧
    (process_conversation c5gw1 "hi" c5db).1 =
      Except.ok (ProcResp.mk (UserDoc.mk 0 "A" "e@x" none) 1
        [("user_id", Val.vOid 0), ("country", Val.vStr "India"),
         ("intent_level", Val.vStr "BOFU"), ("follow_up", Val.vBool false)] 2) ∧
    (process_conversation c5gw2 "hi" (process_conversation c5gw1 "hi" c5db).2.1).1 =
      Except.ok (ProcResp.mk (UserDoc.mk 3 "N" "f@y" (some "919876543210")) 4
        [("user_id", Val.vOid 3), ("country", Val.vStr "India"),
         ("intent_level", Val.vStr "BOFU"), ("follow_up", Val.vBool false)] 5) ∧
    (UserDoc.mk 0 "A" "e@x" none).id ≠
      (UserDoc.mk 3 "N" "f@y" (some "919876543210")).id ∧
    (process_conversation c5gw1 "hi" c5db).2.1.users.length = 1 ∧
    (process_conversation c5gw2 "hi"
      (process_conversation c5gw1 "hi" c5db).2.1).2.1.users.length = 2 := by
  refine ⟨by decide, by decide, by decide, by decide, by decide, by decide, by decide⟩

/-- C5 witness: after a first call that inserts the user under the extracted
phone, a second call with the same phone leaves the user list unchanged and
performs neither an email lookup nor a user insert. -/
theorem c5_witness :
    (process_conversation c5gwIns "hello again" c5db1).2.1.users = c5db1.users ∧
    Eff.insertUser 3 ∉ (process_conversation c5gwIns "hello again" c5db1).2.2 ∧
    Eff.findUserByEmail "" ∉ (process_conversation c5gwIns "hello again" c5db1).2.2 := by
  obtain ⟨r2, db2, tr2, heq, hru, hus, hne, hni⟩ :=
    c5_amended c5gwIns c5gwIns "hi" "hello again" c5dbEmpty c5db1 c5r1 c5tr1
      "9876543210" (by decide) (by decide) (by decide) (by decide) (by decide)
  rw [heq]
  exact ⟨hus, hni 3, hne ""⟩

/-! ## Theorems: analytics upsert (C6) -/

theorem getField_cons (kv : String × Val) (tail : List (String × Val)) (k : String) :
    getField (kv :: tail) k = if kv.1 == k then some kv.2 else getField tail k := by
  unfold getField
  rw [List.find?_cons]
  cases h : (kv.1 == k) <;> simp [h]

theorem getField_setField_self (fs : List (String × Val)) (k : String) (v : Val) :
    getField (setField fs k v) k = some v := by
  induction fs with
  | nil => simp [setField, getField_cons]
  | cons kv rest ih =>
    by_cases hk : kv.1 = k
    · rw [show setField (kv :: rest) k v = (k, v) :: rest from by
        simp [setField, hk]]
      simp [getField_cons]
    · rw [show setField (kv :: rest) k v = kv :: setField rest k v from by
        simp [setField, hk]]
      rw [getField_cons]
      rw [if_neg (by simpa using hk)]
      exact ih

theorem getField_setField_ne (fs : List (String × Val)) (k k' : String) (v : Val)
    (h : k' ≠ k) : getField (setField fs k v) k' = getField fs k' := by
  induction fs with
  | nil =>
    simp [setField, getField_cons, getField]
    intro hx
    exact absurd hx.symm h
  | cons kv rest ih =>
    by_cases hk : kv.1 = k
    · rw [show setField (kv :: rest) k v = (k, v) :: rest from by
        simp [setField, hk]]
      rw [getField_cons, getField_cons]
      rw [if_neg (by simpa using (Ne.symm h)), if_neg (by rw [hk]; simpa using (Ne.symm h))]
    · rw [show setField (kv :: rest) k v = kv :: setField rest k v from by
        simp [setField, hk]]
      rw [getField_cons, getField_cons, ih]

theorem getField_eq_none_of_not_mem (upd : List (String × Val)) (k : String)
    (h : k ∉ upd.map Prod.fst) : getField upd k = none := by
  unfold getField
  rw [List.find?_eq_none.mpr]
  · rfl
  · intro kv hkv hbeq
    exact h (List.mem_map.mpr ⟨kv, hkv, by simpa using hbeq⟩)

theorem getField_setFields_none :
    ∀ (upd fs : List (String × Val)) (k : String), getField upd k = none →
      getField (setFields fs upd) k = getField fs k := by
  intro upd
  induction upd with
  | nil => intro fs k _; rfl
  | cons kv rest ih =>
    intro fs k h
    rw [getField_cons] at h
    cases hb : (kv.1 == k) with
    | true =>
      rw [hb] at h
      simp at h
    | false =>
      rw [hb] at h
      simp only [Bool.false_eq_true, if_false] at h
      show getField (setFields (setField fs kv.1 kv.2) rest) k = getField fs k
      rw [ih _ _ h]
      exact getField_setField_ne fs kv.1 k kv.2 (Ne.symm (by simpa using hb))

theorem getField_setFields_some :
    ∀ (upd fs : List (String × Val)) (k : String) (v : Val),
      (upd.map Prod.fst).Nodup → getField upd k = some v →
      getField (setFields fs upd) k = some v := by
  intro upd
  induction upd with
  | nil => intro fs k v _ h; simp [getField] at h
  | cons kv rest ih =>
    intro fs k v hnd h
    rw [getField_cons] at h
    cases hb : (kv.1 == k) with
    | true =>
      rw [hb] at h
      simp only [if_true] at h
      injection h with h
      subst h
      have hkk : kv.1 = k := by simpa using hb
      have hnotin : k ∉ rest.map Prod.fst := by
        rw [← hkk]
        exact (List.nodup_cons.mp hnd).1
      show getField (setFields (setField fs kv.1 kv.2) rest) k = some kv.2
      rw [getField_setFields_none rest _ _ (getField_eq_none_of_not_mem rest k hnotin)]
      rw [hkk]
      exact getField_setField_self fs k kv.2
    | false =>
      rw [hb] at h
      simp only [Bool.false_eq_true, if_false] at h
      show getField (setFields (setField fs kv.1 kv.2) rest) k = some v
      exact ih _ k v (List.nodup_cons.mp hnd).2 h

theorem generate_analytics_keys (gw : Gateway) (uid : Nat) :
    (generate_analytics gw uid).map Prod.fst =
      ["user_id", "country", "intent_level", "follow_up"] := rfl

theorem generate_analytics_user_id (gw : Gateway) (uid : Nat) :
    getField (generate_analytics gw uid) "user_id" = some (Val.vOid uid) := rfl

theorem setField_keys (fs : List (String × Val)) (k : String) (v : Val)
    (h : k ∈ fs.map Prod.fst) : (setField fs k v).map Prod.fst = fs.map Prod.fst := by
  induction fs with
  | nil => exact absurd h (by simp)
  | cons kv rest ih =>
    by_cases hk : kv.1 = k
    · rw [show setField (kv :: rest) k v = (k, v) :: rest from by
        simp [setField, hk]]
      simp [hk]
    · rw [show setField (kv :: rest) k v = kv :: setField rest k v from by
        simp [setField, hk]]
      have h' : k ∈ rest.map Prod.fst := by
        simp only [List.map_cons, List.mem_cons] at h
        rcases h with hx | hx
        · exact absurd hx.symm hk
        · exact hx
      simp [ih h']

theorem deriv2_keys (gw : Gateway) (u : UserDoc) (ex : AnalyticsRec) :
    (deriv2 gw u ex).map Prod.fst =
      ["user_id", "country", "intent_level", "follow_up"] := by
  unfold deriv2
  split
  · rw [setField_keys _ _ _ (by rw [generate_analytics_keys]; decide)]
    exact generate_analytics_keys gw u.id
  · exact generate_analytics_keys gw u.id

theorem deriv2_nodup (gw : Gateway) (u : UserDoc) (ex : AnalyticsRec) :
    ((deriv2 gw u ex).map Prod.fst).Nodup := by
  rw [deriv2_keys]
  decide

theorem deriv2_user_id (gw : Gateway) (u : UserDoc) (ex : AnalyticsRec) :
    getField (deriv2 gw u ex) "user_id" = some (Val.vOid u.id) := by
  unfold deriv2
  split
  · rw [getField_setField_ne _ _ _ _ (by decide)]
    exact generate_analytics_user_id gw u.id
  · exact generate_analytics_user_id gw u.id

theorem deriv2_follow_up (gw : Gateway) (u : UserDoc) (ex : AnalyticsRec)
    (h : getField ex.fields "follow_up" = none) :
    getField (deriv2 gw u ex) "follow_up" =
      some (Val.vBool (detect_follow_up gw)) := by
  unfold deriv2
  rw [if_pos h]
  exact getField_setField_self _ _ _

theorem processPhase3_analytics (conversation : String) (languages : List String)
    (u : UserDoc) (db : DB) (tr : List Eff) (aid : Nat)
    (af : List (String × Val)) :
    (processPhase3 conversation languages u db tr aid af).2.1.analytics =
      db.analytics := rfl

theorem countA_cons (x : Nat) (a : AnalyticsRec) (rest : List AnalyticsRec) :
    countA x (a :: rest) =
      (if getField a.fields "user_id" == some (Val.vOid x) then 1 else 0) +
        countA x rest := by
  unfold countA
  by_cases h : (getField a.fields "user_id" == some (Val.vOid x)) = true
  · simp [List.filter_cons, h]
    omega
  · simp [List.filter_cons, h]

theorem countA_append (x : Nat) (l1 l2 : List AnalyticsRec) :
    countA x (l1 ++ l2) = countA x l1 + countA x l2 := by
  unfold countA
  rw [List.filter_append, List.length_append]

theorem countA_eq_zero_of_find?_none (uid : Nat) (l : List AnalyticsRec)
    (h : l.find? (fun a => getField a.fields "user_id" == some (Val.vOid uid)) =
      none) : countA uid l = 0 := by
  unfold countA
  rw [List.filter_eq_nil_iff.mpr (List.find?_eq_none.mp h)]
  rfl

theorem countA_updateFirst (x uid : Nat) (d : List (String × Val))
    (l : List AnalyticsRec)
    (hd : ∀ fs, getField (setFields fs d) "user_id" = some (Val.vOid uid)) :
    countA x (updateFirst
      (fun a => getField a.fields "user_id" == some (Val.vOid uid))
      (fun a => AnalyticsRec.mk a.id (setFields a.fields d)) l) = countA x l := by
  induction l with
  | nil => rfl
  | cons a rest ih =>
    unfold updateFirst
    split
    · rename_i hpa
      have ha : getField a.fields "user_id" = some (Val.vOid uid) := by
        simpa using hpa
      rw [countA_cons, countA_cons]
      rw [show getField (AnalyticsRec.mk a.id (setFields a.fields d)).fields
          "user_id" = some (Val.vOid uid) from hd a.fields]
      rw [ha]
    · rw [countA_cons, countA_cons, ih]

theorem updateFirst_map_id (p : AnalyticsRec → Bool)
    (g : AnalyticsRec → List (String × Val)) (l : List AnalyticsRec) :
    (updateFirst p (fun a => AnalyticsRec.mk a.id (g a)) l).map AnalyticsRec.id =
      l.map AnalyticsRec.id := by
  induction l with
  | nil => rfl
  | cons a rest ih =>
    unfold updateFirst
    split
    · simp
    · simp [ih]

/-- C6 (amended): the analytics upsert is a MongoDB `$set` of the derived
document onto the existing record — every field of the derived document
replaces the stored value, fields outside the derived document are preserved
(a field-level merge, not a full overwrite) — the record identifiers are
preserved (no record is added or removed), a missing `follow_up` is freshly
recomputed onto the update document, and the number of analytics records per
`user_id` never grows beyond one. -/
theorem c6_amended :
    (∀ (gw : Gateway) (conversation : String) (languages : List String)
      (u : UserDoc) (db : DB) (tr : List Eff) (ex : AnalyticsRec),
      db.analytics.find?
        (fun a => getField a.fields "user_id" == some (Val.vOid u.id)) = some ex →
      (processPhase2 gw conversation languages u db tr).2.1.analytics =
        updateFirst (fun a => getField a.fields "user_id" == some (Val.vOid u.id))
          (fun a => AnalyticsRec.mk a.id (setFields a.fields (deriv2 gw u ex)))
          db.analytics ∧
      (processPhase2 gw conversation languages u db tr).2.1.analytics.map
          AnalyticsRec.id = db.analytics.map AnalyticsRec.id ∧
      (∀ k v, getField (deriv2 gw u ex) k = some v →
        getField (setFields ex.fields (deriv2 gw u ex)) k = some v) ∧
      (∀ k, getField (deriv2 gw u ex) k = none →
        getField (setFields ex.fields (deriv2 gw u ex)) k = getField ex.fields k) ∧
      (getField ex.fields "follow_up" = none →
        getField (deriv2 gw u ex) "follow_up" =
          some (Val.vBool (detect_follow_up gw)))) ∧
    (∀ (gw : Gateway) (conversation : String) (languages : List String)
      (u : UserDoc) (db : DB) (tr : List Eff) (x : Nat),
      countA x (processPhase2 gw conversation languages u db tr).2.1.analytics ≤
        max 1 (countA x db.analytics)) := by
  constructor
  · intro gw conversation languages u db tr ex hex
    have hupd : (processPhase2 gw conversation languages u db tr).2.1.analytics =
        updateFirst (fun a => getField a.fields "user_id" == some (Val.vOid u.id))
          (fun a => AnalyticsRec.mk a.id (setFields a.fields (deriv2 gw u ex)))
          db.analytics := by
      simp only [processPhase2, hex]
      rw [processPhase3_analytics]
      simp only [deriv2]
    refine ⟨hupd, ?_, ?_, ?_, deriv2_follow_up gw u ex⟩
    · rw [hupd]
      exact updateFirst_map_id _ _ db.analytics
    · intro k v hk
      exact getField_setFields_some _ _ k v (deriv2_nodup gw u ex) hk
    · intro k hk
      exact getField_setFields_none _ _ k hk
  · intro gw conversation languages u db tr x
    simp only [processPhase2]
    split
    · rename_i ex hex
      rw [processPhase3_analytics]
      show countA x (updateFirst
        (fun a => getField a.fields "user_id" == some (Val.vOid u.id))
        (fun a => AnalyticsRec.mk a.id (setFields a.fields (deriv2 gw u ex)))
        db.analytics) ≤ max 1 (countA x db.analytics)
      rw [countA_updateFirst x u.id (deriv2 gw u ex) db.analytics
        (fun fs => getField_setFields_some _ fs "user_id" (Val.vOid u.id)
          (deriv2_nodup gw u ex) (deriv2_user_id gw u ex))]
      exact le_max_right 1 _
    · rename_i hex
      rw [processPhase3_analytics]
      show countA x (db.analytics ++
        [AnalyticsRec.mk db.nextId (generate_analytics gw u.id)]) ≤
        max 1 (countA x db.analytics)
      rw [countA_append]
      by_cases hx : x = u.id
      · rw [hx]
        rw [countA_eq_zero_of_find?_none u.id db.analytics hex]
        rw [countA_cons]
        rw [show getField (AnalyticsRec.mk db.nextId
          (generate_analytics gw u.id)).fields "user_id" =
            some (Val.vOid u.id) from generate_analytics_user_id gw u.id]
        have h0 : countA u.id ([] : List AnalyticsRec) = 0 := rfl
        rw [h0]
        simp
      · rw [countA_cons]
        rw [show getField (AnalyticsRec.mk db.nextId
          (generate_analytics gw u.id)).fields "user_id" =
            some (Val.vOid u.id) from generate_analytics_user_id gw u.id]
        rw [if_neg (by simp; intro hc; exact hx hc.symm)]
        have h0 : countA x ([] : List AnalyticsRec) = 0 := rfl
        rw [h0]
        have hmax := le_max_right 1 (countA x db.analytics)
        omega

/-- C6 counterexample: a run against an existing analytics record carrying a
field ("legacy") that the newly derived document does not produce.  After the
upsert the stored record still holds `legacy` — the code performs a `$set`
field-level merge, so "all of its fields are replaced by the newly derived
document (full overwrite, not a field-level merge)" is false. -/
theorem c6_counterexample :
    (process_conversation c6gw "User: hi" c6db).2.1.analytics =
      [AnalyticsRec.mk 5 [("user_id", Val.vOid 0), ("country", Val.vStr "USA"),
        ("intent_level", Val.vStr "BOFU"), ("follow_up", Val.vBool false),
        ("legacy", Val.vStr "z")]] ∧
    getField (generate_analytics c6gw 0) "legacy" = none := by
  refine ⟨by decide, by decide⟩

/-- C6 witness: the amended upsert theorem applied at the concrete `c6db`
scenario — the update preserves the stored record's identifier. -/
theorem c6_witness :
    (processPhase2 c6gw "User: hi" ["english"]
      (UserDoc.mk 0 "A" "a@x" (some "919876543210")) c6db []).2.1.analytics.map
        AnalyticsRec.id = [5] := by
  have h := c6_amended.1 c6gw "User: hi" ["english"]
    (UserDoc.mk 0 "A" "a@x" (some "919876543210")) c6db [] c6ex (by decide)
  rw [h.2.1]
  decide
